import Mathlib

/-!
Verification model of `mythic-init.py`.

The script is sequential glue code around external tools (git, mythic-cli,
make, docker, iptables).  We embed it shallowly: pure computations
(the `.env` serialization of `configureMythic` and the `.env` parser of the
`--print` branch) become Lean functions on strings, and the effectful
functions (`cleanAndDestroy`, `cloneAndBuild`, `configureRules`,
`stockAgentsAndProfiles`, `__main__`) become functions from an explicit
input record (filesystem facts, prompt answers, outcomes of external
commands) to a trace of externally visible actions plus a control event
(normal return, `sys.exit(n)`, an uncaught exception, or a keyboard
interrupt).  Outcomes of external commands are oracle inputs: the script
only observes their exit status and error text.
-/

namespace MythicInit

/-! ## Python string primitives used by the script -/

/-- The characters at which Python `str.splitlines` breaks a line. -/
def isLineBreak (c : Char) : Bool :=
  c == '\n' || c == '\r' || c == '\x0b' || c == '\x0c' ||
  c == '\x1c' || c == '\x1d' || c == '\x1e' || c == '\x85' ||
  c == '\u2028' || c == '\u2029'

/-- Characters stripped by Python `str.strip()` (whitespace). -/
def pyIsSpace (c : Char) : Bool :=
  c == ' ' || c == '\t' || c == '\n' || c == '\r' || c == '\x0b' ||
  c == '\x0c' || c == '\x1c' || c == '\x1d' || c == '\x1e' ||
  c == '\x1f' || c == '\x85' || c == '\xa0' || c == '\u2028' || c == '\u2029'

/-- Strip characters satisfying `p` from both ends of a character list,
the semantics of Python `str.strip`. -/
def pyStripList (p : Char → Bool) (cs : List Char) : List Char :=
  ((cs.dropWhile p).reverse.dropWhile p).reverse

/-- Python `s.strip(chars)` for a character predicate. -/
def pyStripChars (p : Char → Bool) (s : String) : String :=
  String.mk (pyStripList p s.toList)

/-- Python `s.strip()` (no argument: whitespace). -/
def pyStrip (s : String) : String := pyStripChars pyIsSpace s

/-- Python `s.strip(chr(34))`, used on values read back from the env file. -/
def pyStripQuotes (s : String) : String := pyStripChars (fun c => c == '"') s

/-- Python `s.upper()` (the script only upper-cases ASCII option names). -/
def pyUpper (s : String) : String := String.mk (s.toList.map Char.toUpper)

/-- Python `sep.join(parts)`. -/
def pyJoin (sep : String) : List String → String
  | [] => ""
  | [x] => x
  | x :: y :: t => x ++ sep ++ pyJoin sep (y :: t)

/-- Python `str.splitlines`, accumulator version: a line ends at any
line-break character, a `\r\n` pair counts as a single break (the flag
records that the previous character was a carriage return, so a directly
following line feed is consumed silently), and a final segment is emitted
only if nonempty. -/
def pySplitLinesAux : List Char → List Char → Bool → List String
  | [], acc, _ => if acc.isEmpty then [] else [String.mk acc.reverse]
  | c :: rest, acc, afterCR =>
    if afterCR && c == '\n' then pySplitLinesAux rest acc false
    else if c = '\r' then String.mk acc.reverse :: pySplitLinesAux rest [] true
    else if isLineBreak c then String.mk acc.reverse :: pySplitLinesAux rest [] false
    else pySplitLinesAux rest (c :: acc) false

/-- Python `str.splitlines`, as used by `f.read().splitlines()`. -/
def pySplitLines (s : String) : List String := pySplitLinesAux s.toList [] false

/-- Python `line.split(chr(61), 1)` on a line known to contain an equals
sign: the part before the first equals sign and the part after it. -/
def splitAtFirstEq : List Char → List Char × List Char
  | [] => ([], [])
  | c :: rest =>
    if c = '=' then ([], rest)
    else
      let p := splitAtFirstEq rest
      (c :: p.1, p.2)

/-- Is `pre` a leading segment of `l`?  Used to state what it means for a
configuration line to belong to a given option name. -/
def chListLeads : List Char → List Char → Bool
  | [], _ => true
  | _ :: _, [] => false
  | p :: ps, c :: cs => p == c && chListLeads ps cs

/-- Does the line open with the given name followed by an equals sign? -/
def lineForName (name line : String) : Bool :=
  chListLeads (name ++ "=").toList line.toList

/-- Python `needle in hay` on strings (contiguous substring). -/
def chListInfix (needle : List Char) : List Char → Bool
  | [] => needle.isEmpty
  | c :: cs => chListLeads needle (c :: cs) || chListInfix needle cs

/-- Python `needle in hay` for strings. -/
def pyIn (needle hay : String) : Bool := chListInfix needle.toList hay.toList

/-! ## The environment configurator (`configureMythic`, lines 216-230)

`configureMythic` receives the fixed keyword map built in `__main__`
(lines 353-377): the 23 option names below, each bound to an optional
string.  It upper-cases the names of the non-null entries into a Python
dict (insertion ordered), and, when that dict is nonempty, writes the
file `KEY="value"` lines joined by a newline. -/

/-- Insertion into a Python dict rendered as an ordered association list:
assigning to an existing key overwrites in place, a new key is appended. -/
def dictInsert (d : List (String × String)) (k v : String) : List (String × String) :=
  if d.any (fun kv => kv.1 = k) then
    d.map (fun kv => if kv.1 = k then (k, v) else kv)
  else d ++ [(k, v)]

/-- Lines 217-220: `effective_env[k.upper()] = v` for every non-null value. -/
def effectiveEnv (envVars : List (String × Option String)) : List (String × String) :=
  envVars.foldl
    (fun acc kv =>
      match kv.2 with
      | none => acc
      | some v => dictInsert acc (pyUpper kv.1) v)
    []

/-- The non-null entries with upper-cased names, in order; with pairwise
distinct upper-cased names this is exactly `effectiveEnv`. -/
def envPairs (envVars : List (String × Option String)) : List (String × String) :=
  envVars.filterMap (fun kv => kv.2.map (fun v => (pyUpper kv.1, v)))

/-- Line 222: the serialized form of one entry. -/
def envLine (key value : String) : String := key ++ "=\"" ++ value ++ "\""

/-- Lines 222-223: the file body, entries joined by a newline. -/
def confContent (e : List (String × String)) : String :=
  pyJoin "\n" (e.map (fun kv => envLine kv.1 kv.2))

/-- Lines 221-230: the written `.env` content; `none` when every value is
null, in which case no file is created. -/
def envFileContent (envVars : List (String × Option String)) : Option String :=
  let e := effectiveEnv envVars
  if e.isEmpty then none else some (confContent e)

/-- The fixed option names passed to `configureMythic` (lines 353-377). -/
def envOptionKeys : List String :=
  ["allowed_ip_blocks", "compose_project_name", "debug_level",
   "default_operation_name", "default_operation_webhook_channel",
   "default_operation_webhook_url", "documentation_bind_localhost_only",
   "documentation_host", "documentation_port",
   "documentation_use_build_context", "documentation_use_volume",
   "global_docker_latest", "global_manager", "global_server_name",
   "hasura_bind_localhost_only", "hasura_cpus",
   "hasura_experimental_features", "hasura_host", "hasura_mem_limit",
   "hasura_port", "hasura_secret", "hasura_use_build_context",
   "hasura_use_volume"]

/-- An override map as the program builds one: the fixed option names
zipped with the caller-supplied optional values. -/
def envOverrides (vals : List (Option String)) : List (String × Option String) :=
  envOptionKeys.zip vals

/-! ## The `--print` branch parser (`__main__`, lines 388-394) -/

/-- One iteration of the parsing loop: strip the line; if it is nonempty
and contains an equals sign, split at the first equals sign, strip the key,
and strip whitespace then quotes from the value. -/
def parseEnvLine (acc : List (String × String)) (line : String) : List (String × String) :=
  let l := pyStrip line
  if l.toList = [] then acc
  else if '=' ∈ l.toList then
    let kv := splitAtFirstEq l.toList
    dictInsert acc (pyStrip (String.mk kv.1)) (pyStripQuotes (pyStrip (String.mk kv.2)))
  else acc

/-- The whole `--print` parser applied to a file body. -/
def pyPrintEnvParse (content : String) : List (String × String) :=
  (pySplitLines content).foldl parseEnvLine []

/-! ## Traces of externally visible actions

Every consequential step of the script is an invocation of an external
tool or a filesystem mutation.  We record those as actions; console output
is not recorded. -/

/-- The externally visible actions the script can perform. -/
inductive Act where
  | cliStop : Act
  | uninstallItem : String → Act
  | warnUninstall : String → Act
  | installItem : String → Act
  | warnInstall : String → Act
  | refuseHome : Act
  | deleteEntry : String → Act
  | composeDown : Act
  | containerPrune : Act
  | volumePrune : Act
  | systemPrune : Act
  | promptGit : Act
  | deleteGitDir : Act
  | promptConflicts : Act
  | deleteConflict : String → Act
  | cloneAttempt : Act
  | forceReinit : Act
  | pull : Act
  | build : Act
  | writeEnvFile : String → Act
  | cliStart : Act
  | iptables : List String → Act
deriving DecidableEq

/-- Did the action delete an entry of the target directory? -/
def Act.isDeleteEntry : Act → Bool
  | .deleteEntry _ => true
  | _ => false

/-- How a modeled function hands control back: a normal return, a
`sys.exit(n)`, an uncaught exception, or a keyboard interrupt. -/
inductive Ev where
  | exitCode : Nat → Ev
  | exn : Ev
  | interrupt : Ev
deriving DecidableEq

/-- A run of a piece of the script: its action trace and the control event
that ended it (`none` means it returned normally). -/
abbrev Res := List Act × Option Ev

/-- Sequencing: run the continuation only after a normal return. -/
def seqR (r : Res) (k : Unit → Res) : Res :=
  match r.2 with
  | some _ => r
  | none => ((r.1 ++ (k ()).1, (k ()).2) : Res)

/-- Prepend already-performed actions to a run. -/
def withActs (as : List Act) (r : Res) : Res := (as ++ r.1, r.2)

/-- An answer to one of the y/n confirmation prompts.  The source loops
until the user types y or n; we model the eventual answer, plus the
possibility that the blocking `input()` is interrupted. -/
inductive Ans where
  | yes : Ans
  | no : Ans
  | interrupted : Ans
deriving DecidableEq

/-- The upstream repository URL (line 23). -/
def MYTHIC_REPO_URL : String := "https://github.com/its-a-feature/Mythic"

/-! ## Docker cleanup helpers (lines 69-82) -/

/-- `cleanup_docker_orphans` (lines 69-76): if the compose file is absent,
only a notice is printed; otherwise `docker compose down --remove-orphans`
runs against it.  `os.system` results are ignored, so nothing can raise. -/
def cleanup_docker_orphans (composePresent : Bool) : List Act :=
  if composePresent then [Act.composeDown] else []

/-- `cleanup_docker` (lines 78-82): prune containers, volumes, and all
unused images, in that order. -/
def cleanup_docker : List Act :=
  [Act.containerPrune, Act.volumePrune, Act.systemPrune]

/-! ## Plugin lists (lines 250-258 and 277-285) -/

/-- The seven plugin references iterated by `stockAgentsAndProfiles`
(lines 250-258). -/
def installItems : List String :=
  ["github https://github.com/MythicAgents/apfell",
   "github https://github.com/MythicAgents/Hannibal",
   "github https://github.com/MythicAgents/Athena",
   "github https://github.com/MythicC2Profiles/http",
   "github https://github.com/MythicC2Profiles/httpx",
   "github https://github.com/MythicC2Profiles/dns",
   "github https://github.com/MythicC2Profiles/websocket"]

/-- The seven plugin references iterated by the uninstall loop of
`cleanAndDestroy` (lines 277-285). -/
def uninstallItems : List String :=
  ["github https://github.com/MythicAgents/apfell",
   "github https://github.com/MythicAgents/Hannibal",
   "github https://github.com/MythicAgents/Athena",
   "github https://github.com/MythicC2Profiles/http",
   "github https://github.com/MythicC2Profiles/httpx",
   "github https://github.com/MythicC2Profiles/dns",
   "github https://github.com/MythicC2Profiles/websocket"]

/-! ## Teardown (`cleanAndDestroy`, lines 267-315) -/

/-- Inputs of a teardown run.  `normalize` stands for `os.path.abspath`;
`uninstallErr item` is the error text of the failed uninstall subcommand
for `item`, or `none` if that uninstall exited 0; `listdirRaises` covers
`os.listdir` failing (for example, the target directory does not exist),
the one uncaught exception site of the function.  Failures of
`./mythic-cli stop` and of the per-entry deletions are caught and only
printed, so they do not appear as inputs. -/
structure TeardownInput where
  targetDir : String
  homeDir : String
  normalize : String → String
  cliPresent : Bool
  uninstallErr : String → Option String
  listdirRaises : Bool
  entries : List String
  scriptName : String
  composePresent : Bool
  noDockerCleanup : Bool

/-- The uninstall loop (lines 286-292): every item is attempted; a failed
subcommand is caught and downgraded to a warning whose text does not
depend on the error text. -/
def uninstallPhase (t : TeardownInput) : List Act :=
  uninstallItems.flatMap (fun it =>
    Act.uninstallItem it ::
      (match t.uninstallErr it with
       | some _ => [Act.warnUninstall it]
       | none => []))

/-- `cleanAndDestroy` (lines 267-315): stop the CLI and uninstall the
plugins (only when the CLI binary is present); refuse and return if the
normalized target equals the normalized home directory; otherwise delete
every directory entry except the running script, then run the orphan
cleanup and, unless suppressed, the Docker prune. -/
def cleanAndDestroy (t : TeardownInput) : Res :=
  let pre : List Act :=
    if t.cliPresent then Act.cliStop :: uninstallPhase t else []
  if t.normalize t.targetDir = t.normalize t.homeDir then
    (pre ++ [Act.refuseHome], none)
  else if t.listdirRaises then (pre, some Ev.exn)
  else
    let dels := t.entries.filterMap (fun e =>
      if e = t.scriptName then none else some (Act.deleteEntry e))
    (pre ++ dels ++ cleanup_docker_orphans t.composePresent ++
      (if t.noDockerCleanup then [] else cleanup_docker), none)

/-! ## Plugin installation (`stockAgentsAndProfiles`, lines 246-265) -/

/-- `stockAgentsAndProfiles`: nothing happens when the CLI binary is
missing; otherwise every item is attempted in order, and a failed install
subcommand is caught and downgraded to a warning. -/
def stockAgentsAndProfiles (cliPresent : Bool) (installFails : String → Bool) : Res :=
  if cliPresent then
    (installItems.flatMap (fun it =>
      Act.installItem it :: (if installFails it then [Act.warnInstall it] else [])),
     none)
  else ([], none)

/-! ## Firewall restrictor (`configureRules`, lines 234-244) -/

/-- Arguments of the DROP insertion (line 240): insert at the front of the
DOCKER-USER chain, TCP destination port 7443, target DROP. -/
def dropRuleArgs : List String :=
  ["-I", "DOCKER-USER", "-p", "tcp", "--dport", "7443", "-j", "DROP"]

/-- Arguments of the ACCEPT insertion (line 241): insert at the front of
the DOCKER-USER chain, TCP destination port 7443, source restricted to the
trusted address, target ACCEPT. -/
def acceptRuleArgs (src : String) : List String :=
  ["-I", "DOCKER-USER", "-p", "tcp", "--dport", "7443", "-s", src, "-j", "ACCEPT"]

/-- `configureRules`: a falsy `trustedIps` (absent or empty) is a no-op
with a notice.  Otherwise the DROP rule is inserted; if that invocation
raises `CalledProcessError` the `try` body aborts, so the ACCEPT rule is
only inserted when the DROP invocation succeeded.  Either error is caught
(lines 243-244), so the function always returns normally.  A failure of
the ACCEPT invocation happens after that rule was issued, so it does not
change the trace. -/
def configureRules (trustedIps : Option String) (dropFails acceptFails : Bool) : Res :=
  match trustedIps with
  | none => ([], none)
  | some t =>
    if t = "" then ([], none)
    else if dropFails then ([Act.iptables dropRuleArgs], none)
    else ([Act.iptables dropRuleArgs, Act.iptables (acceptRuleArgs t)], none)

/-! ## Repository reconciler (`cloneAndBuild`, lines 129-214) -/

/-- Inputs of a reconciler run.  `cloneError` is the text of the
`GitCommandError` raised by `Repo.clone_from`, or `none` on success;
`remotes` are the origin URLs found by `Repo(targetLoc).remotes`;
`pullRaises` covers `repo.git.pull` raising (that call is not inside any
inner `try`); `makeFails` is a non-zero exit of `make`. -/
structure ReconInput where
  gitDirExists : Bool
  gitAns : Ans
  rmGitFails : Bool
  conflicts : List String
  conflictAns : Ans
  rmConflictFails : Bool
  cloneError : Option String
  remotes : List String
  pullRaises : Bool
  makeFails : Bool

/-- `build_mythic` (lines 121-127): run `make`; a non-zero exit is printed
and the process exits with code 1. -/
def build_mythic (makeFails : Bool) : Res :=
  ([Act.build], if makeFails then some (Ev.exitCode 1) else none)

/-- Lines 184-214: the clone attempt and its error handling.  `gitDirNow`
is whether `targetLoc/.git` exists at this point (line 192 re-checks the
filesystem).  On a `GitCommandError` whose text reports that the
destination path already exists: without a `.git` directory the target is
forcibly re-initialized; with one, the origin remotes decide between a
pull and a forced re-initialization.  Any other git error aborts with exit
code 1 (line 214 via `setup_successful = False`). -/
def clonePhase (i : ReconInput) (gitDirNow : Bool) : Res :=
  match i.cloneError with
  | none => withActs [Act.cloneAttempt] (build_mythic i.makeFails)
  | some msg =>
    if pyIn "destination path" msg && pyIn "already exists" msg then
      if gitDirNow = false then
        withActs [Act.cloneAttempt, Act.forceReinit] (build_mythic i.makeFails)
      else if i.remotes.contains MYTHIC_REPO_URL then
        if i.pullRaises then ([Act.cloneAttempt], some Ev.exn)
        else withActs [Act.cloneAttempt, Act.pull] (build_mythic i.makeFails)
      else withActs [Act.cloneAttempt, Act.forceReinit] (build_mythic i.makeFails)
    else ([Act.cloneAttempt], some (Ev.exitCode 1))

/-- Lines 156-182: the root-level conflict check.  With conflicts present,
declining exits cleanly with code 0, accepting deletes every conflicting
entry (a deletion failure exits with code 1) and proceeds to the clone. -/
def conflictPhase (i : ReconInput) (gitDirNow : Bool) : Res :=
  if i.conflicts.isEmpty then clonePhase i gitDirNow
  else
    match i.conflictAns with
    | .yes =>
      if i.rmConflictFails then ([Act.promptConflicts], some (Ev.exitCode 1))
      else
        withActs (Act.promptConflicts :: i.conflicts.map Act.deleteConflict)
          (clonePhase i gitDirNow)
    | .no => ([Act.promptConflicts], some (Ev.exitCode 0))
    | .interrupted => ([Act.promptConflicts], some Ev.interrupt)

/-- `cloneAndBuild` (lines 129-214).  When `targetLoc/.git` exists the
script warns about a nested repository and prompts: declining exits with
code 0 (line 152); accepting removes the `.git` directory (a failure there
exits with code 1) and proceeds.  After this phase `.git` cannot exist:
it was either just deleted or never present, so the later phases run with
`gitDirNow = false`. -/
def cloneAndBuild (i : ReconInput) : Res :=
  if i.gitDirExists then
    match i.gitAns with
    | .yes =>
      if i.rmGitFails then ([Act.promptGit], some (Ev.exitCode 1))
      else withActs [Act.promptGit, Act.deleteGitDir] (conflictPhase i false)
    | .no => ([Act.promptGit], some (Ev.exitCode 0))
    | .interrupted => ([Act.promptGit], some Ev.interrupt)
  else conflictPhase i false

/-! ## Environment configurator run (`configureMythic`, lines 216-232) -/

/-- The effectful part of `configureMythic`: write the file when at least
one value is non-null (a write failure is an uncaught exception), then,
when the CLI binary is present, run `./mythic-cli start` with
`check=True`, whose non-zero exit raises out of the function. -/
def configureMythic (envVars : List (String × Option String))
    (writeRaises cliPresent startRaises : Bool) : Res :=
  let startPart : Res :=
    if cliPresent then
      if startRaises then ([Act.cliStart], some Ev.exn) else ([Act.cliStart], none)
    else ([], none)
  match envFileContent envVars with
  | some c =>
    if writeRaises then ([], some Ev.exn)
    else withActs [Act.writeEnvFile c] startPart
  | none => startPart

/-! ## The entry point (`__main__`, lines 317-426) -/

/-- Inputs of a whole run.  The `--print` branch only reads and prints, so
it contributes nothing to the trace; argument parsing happens before the
top-level `try` and is not modeled. -/
structure MainInput where
  cleanup : Bool
  printFlag : Bool
  teardown : TeardownInput
  recon : ReconInput
  composePresent : Bool
  envFlag : Bool
  envVals : List (Option String)
  writeEnvRaises : Bool
  cliPresent : Bool
  startRaises : Bool
  sourceIp : Option String
  dropFails : Bool
  acceptFails : Bool
  installFlag : Bool
  installFails : String → Bool

/-- The guarded body of `__main__` (lines 379-417): with `--cleanup`,
teardown then `sys.exit(0)`; otherwise reconcile and build, run the orphan
cleanup, start the CLI (through `configureMythic` when `--env` is set),
inject the firewall rules, and optionally install the plugins. -/
def mainRun (i : MainInput) : Res :=
  if i.cleanup then
    seqR (cleanAndDestroy i.teardown) (fun _ => ([], some (Ev.exitCode 0)))
  else
    seqR (cloneAndBuild i.recon) (fun _ =>
      seqR (cleanup_docker_orphans i.composePresent, none) (fun _ =>
        seqR
          (if i.envFlag then
            configureMythic (envOverrides i.envVals) i.writeEnvRaises
              i.cliPresent i.startRaises
          else if i.cliPresent then
            if i.startRaises then ([Act.cliStart], some Ev.exn)
            else ([Act.cliStart], none)
          else ([], none))
          (fun _ =>
            seqR (configureRules i.sourceIp i.dropFails i.acceptFails) (fun _ =>
              if i.installFlag then stockAgentsAndProfiles i.cliPresent i.installFails
              else ([], none)))))

/-- The process exit code (lines 418-426): a `SystemExit` passes through
the handlers (it does not derive from `Exception`), a keyboard interrupt
or any other uncaught exception is printed and converted to exit code 1,
and a normal completion reaches the final `sys.exit(0)`. -/
def mainExit (i : MainInput) : Nat :=
  match (mainRun i).2 with
  | some (Ev.exitCode n) => n
  | some Ev.exn => 1
  | some Ev.interrupt => 1
  | none => 0

/-! ## Well-formedness of serialized entries -/

/-- An option name as the file format needs it: nonempty, without an
equals sign, and without whitespace characters.  Every upper-cased fixed
option name satisfies this (see `envOptionKeys_good`). -/
def goodKey (K : String) : Prop :=
  K.toList ≠ [] ∧ '=' ∉ K.toList ∧ ∀ c ∈ K.toList, pyIsSpace c = false

instance (K : String) : Decidable (goodKey K) := by
  unfold goodKey; infer_instance

/-- A value without line-break characters: its serialized entry occupies
exactly one line of the written file. -/
def noLineBreaks (v : String) : Prop := ∀ c ∈ v.toList, isLineBreak c = false

instance (v : String) : Decidable (noLineBreaks v) := by
  unfold noLineBreaks; infer_instance

/-- A value without double quotes: the quotes the writer adds around it
are exactly the quotes the `--print` parser strips. -/
def noQuotes (v : String) : Prop := '"' ∉ v.toList

instance (v : String) : Decidable (noQuotes v) := by
  unfold noQuotes; infer_instance

/-- A value without leading or trailing whitespace (the default used when
the value is empty is a non-whitespace character, so an empty value
passes). -/
def noEdgeWhitespace (v : String) : Prop :=
  pyIsSpace (v.toList.headD '"') = false ∧ pyIsSpace (v.toList.getLastD '"') = false

instance (v : String) : Decidable (noEdgeWhitespace v) := by
  unfold noEdgeWhitespace; infer_instance

/-- The hypotheses of the write/parse round trip, per optional value: a
null value imposes nothing, a supplied value has no double quote, no line
break, and no leading or trailing whitespace. -/
def optionGood : Option String → Prop
  | none => True
  | some v => noQuotes v ∧ noLineBreaks v ∧ noEdgeWhitespace v

instance : (ov : Option String) → Decidable (optionGood ov)
  | none => Decidable.isTrue trivial
  | some v => inferInstanceAs (Decidable (noQuotes v ∧ noLineBreaks v ∧ noEdgeWhitespace v))

/-- Per optional value: either null, or free of line-break characters. -/
def optionNoBreak : Option String → Prop
  | none => True
  | some v => noLineBreaks v

instance : (ov : Option String) → Decidable (optionNoBreak ov)
  | none => Decidable.isTrue trivial
  | some v => inferInstanceAs (Decidable (noLineBreaks v))

/-! ## Concrete runs used as witnesses and counterexamples -/

/-- A teardown input with every external step succeeding. -/
def baseTeardown : TeardownInput :=
  { targetDir := "/opt/mythic", homeDir := "/root",
    normalize := fun s => s, cliPresent := true,
    uninstallErr := fun _ => none, listdirRaises := false,
    entries := ["Mythic", "docker-compose.yml", "mythic-init.py"],
    scriptName := "mythic-init.py", composePresent := true,
    noDockerCleanup := false }

/-- A teardown whose target is the home directory (claim C1). -/
def tdHomeC1 : TeardownInput := { baseTeardown with targetDir := "/root" }

/-- A teardown whose target is the home directory, with a compose file
present and the Docker cleanup not suppressed (claim C4). -/
def tdHomeC4 : TeardownInput := { baseTeardown with targetDir := "/root" }

/-- An ordinary teardown used to witness the amended claim C4. -/
def tdC4w : TeardownInput := baseTeardown

/-- The first plugin reference, used in the claim C6 run. -/
def apfellItem : String := "github https://github.com/MythicAgents/apfell"

/-- An uninstall failure whose error text does not mention a missing
installation (claim C6). -/
def handshakeErr : String := "fatal: repository handshake failed"

/-- A teardown in which uninstalling the first plugin fails with
`handshakeErr` (claim C6). -/
def tdC6 : TeardownInput :=
  { baseTeardown with
    uninstallErr := fun it => if it = apfellItem then some handshakeErr else none }

/-- A teardown used to witness the amended claim C6. -/
def tdC6w : TeardownInput :=
  { baseTeardown with uninstallErr := fun _ => some "not installed" }

/-- A teardown used to witness claim C7. -/
def tdC7 : TeardownInput := baseTeardown

/-- A teardown used to witness claim C9. -/
def tdC9 : TeardownInput := baseTeardown

/-- A reconciler input with every prompt answered yes and every external
step succeeding. -/
def baseRecon : ReconInput :=
  { gitDirExists := false, gitAns := Ans.yes, rmGitFails := false,
    conflicts := [], conflictAns := Ans.yes, rmConflictFails := false,
    cloneError := none, remotes := [], pullRaises := false,
    makeFails := false }

/-- The failing input of claim C3: the target directory already holds a
correctly tracked clone, so `.git` exists, the root files collide, and the
origin remote is the upstream URL.  The user confirms both prompts. -/
def reconC3 : ReconInput :=
  { baseRecon with
      gitDirExists := true
      conflicts := ["Makefile"]
      remotes := [MYTHIC_REPO_URL] }

/-- A main-program input with no flags and everything succeeding. -/
def baseMain : MainInput :=
  { cleanup := false, printFlag := false, teardown := baseTeardown,
    recon := baseRecon, composePresent := true, envFlag := false,
    envVals := List.replicate 23 none, writeEnvRaises := false,
    cliPresent := true, startRaises := false, sourceIp := none,
    dropFails := false, acceptFails := false, installFlag := false,
    installFails := fun _ => false }

/-- A `--cleanup` run that completes (claim C8). -/
def mC8cleanup : MainInput := { baseMain with cleanup := true }

/-- A run in which the nested-`.git` prompt is declined (claim C8). -/
def mC8declineGit : MainInput :=
  { baseMain with
      recon := { baseRecon with gitDirExists := true, gitAns := Ans.no } }

/-- A run in which the conflict prompt is declined (claim C8). -/
def mC8declineConflicts : MainInput :=
  { baseMain with
      recon := { baseRecon with conflicts := ["Makefile"], conflictAns := Ans.no } }

/-- A run in which `make` exits non-zero (claim C8). -/
def mC8makeFails : MainInput :=
  { baseMain with recon := { baseRecon with makeFails := true } }

/-- A run interrupted at the nested-`.git` prompt (claim C8). -/
def mC8interrupt : MainInput :=
  { baseMain with
      recon := { baseRecon with gitDirExists := true, gitAns := Ans.interrupted } }

/-- A run in which `./mythic-cli start` exits non-zero and the resulting
`CalledProcessError` reaches the top-level handler (claim C8). -/
def mC8startFails : MainInput := { baseMain with startRaises := true }

/-- A fully successful run (claim C8). -/
def mC8normal : MainInput := baseMain

/-- Override values whose only non-null entry contains a newline
(claim C2 counterexample). -/
def c2cxVals : List (Option String) :=
  some "10.0.0.0/8\n192.168.0.0/16" :: List.replicate 22 none

/-- Override values used to witness the amended claim C2. -/
def c2wVals : List (Option String) :=
  some "10.0.0.0/8" :: (List.replicate 20 none ++ [some "secret", none])

/-- Override values used to witness claim C10. -/
def c10wVals : List (Option String) :=
  none :: some "mythic" :: some "2" :: List.replicate 20 none

/-! # Theorems -/

/-! ## Helper lemmas about the teardown trace -/

/-- Everything the uninstall loop emits is an uninstall attempt or an
uninstall warning. -/
theorem uninstallPhase_acts {t : TeardownInput} {a : Act}
    (ha : a ∈ uninstallPhase t) :
    (∃ it, a = Act.uninstallItem it) ∨ ∃ it, a = Act.warnUninstall it := by
  simp only [uninstallPhase, List.mem_flatMap] at ha
  obtain ⟨it, _, hmem⟩ := ha
  rcases List.mem_cons.mp hmem with h | h
  · exact Or.inl ⟨it, h⟩
  · cases hf : t.uninstallErr it <;> rw [hf] at h
    · simp at h
    · simp at h
      exact Or.inr ⟨it, h⟩

/-- The stop-and-uninstall prelude of `cleanAndDestroy` is a prefix of its
trace in every branch. -/
theorem pre_mem_cleanAndDestroy (t : TeardownInput) (a : Act)
    (hcli : t.cliPresent = true)
    (ha : a ∈ Act.cliStop :: uninstallPhase t) :
    a ∈ (cleanAndDestroy t).1 := by
  unfold cleanAndDestroy
  simp only [hcli, if_true]
  split_ifs with h1 h2 h3 <;>
    first
      | exact List.mem_append_left _ ha
      | exact ha
      | exact List.mem_append_left _ (List.mem_append_left _ (List.mem_append_left _ ha))

/-- The trace of `cleanAndDestroy` when the home-directory refusal does
not trigger and the directory listing succeeds. -/
theorem cleanAndDestroy_sweep_trace (t : TeardownInput)
    (hne : t.normalize t.targetDir ≠ t.normalize t.homeDir)
    (hld : t.listdirRaises = false) :
    (cleanAndDestroy t).1 =
      (if t.cliPresent then Act.cliStop :: uninstallPhase t else []) ++
      (t.entries.filterMap fun e =>
        if e = t.scriptName then none else some (Act.deleteEntry e)) ++
      cleanup_docker_orphans t.composePresent ++
      (if t.noDockerCleanup then [] else cleanup_docker) := by
  simp [cleanAndDestroy, hne, hld]

/-- Count of an action in the stop-and-uninstall prelude, when the action
is neither a stop, an uninstall attempt, nor an uninstall warning. -/
theorem count_pre_eq_zero (t : TeardownInput) (a : Act)
    (h1 : a ≠ Act.cliStop)
    (h2 : ∀ it, a ≠ Act.uninstallItem it)
    (h3 : ∀ it, a ≠ Act.warnUninstall it) :
    (if t.cliPresent then Act.cliStop :: uninstallPhase t else []).count a = 0 := by
  rw [List.count_eq_zero]
  intro hmem
  split at hmem
  · rcases List.mem_cons.mp hmem with h | h
    · exact h1 h
    · rcases uninstallPhase_acts h with ⟨it, h⟩ | ⟨it, h⟩
      · exact h2 it h
      · exact h3 it h
  · simp at hmem

/-- Count of an action in the deletion sweep, when the action is not an
entry deletion. -/
theorem count_dels_eq_zero (t : TeardownInput) (a : Act)
    (h : ∀ e, a ≠ Act.deleteEntry e) :
    (t.entries.filterMap fun e =>
      if e = t.scriptName then none else some (Act.deleteEntry e)).count a = 0 := by
  rw [List.count_eq_zero]
  intro hmem
  obtain ⟨e, _, heq⟩ := List.mem_filterMap.mp hmem
  by_cases hse : e = t.scriptName
  · rw [if_pos hse] at heq
    exact Option.noConfusion heq
  · rw [if_neg hse] at heq
    exact h e (Option.some.inj heq).symm

/-! ## Claim C1 -/

/-- Claim C1: on every teardown whose target directory resolves, after
path normalization, to the caller's home directory, the directory-content
deletion step is not performed: whatever the other inputs, the trace
contains no entry deletion. -/
theorem cleanAndDestroy_home_protected (t : TeardownInput)
    (h : t.normalize t.targetDir = t.normalize t.homeDir) :
    (cleanAndDestroy t).1.countP (fun a => a.isDeleteEntry) = 0 := by
  rw [List.countP_eq_zero]
  intro a ha
  simp only [cleanAndDestroy, h, if_pos] at ha
  rcases List.mem_append.mp ha with h1 | h2
  · split at h1
    · rcases List.mem_cons.mp h1 with h3 | h3
      · subst h3
        simp [Act.isDeleteEntry]
      · rcases uninstallPhase_acts h3 with ⟨it, h4⟩ | ⟨it, h4⟩ <;> subst h4 <;>
          simp [Act.isDeleteEntry]
    · simp at h1
  · simp at h2
    subst h2
    simp [Act.isDeleteEntry]

/-- Witness for claim C1: a concrete teardown whose target is the home
directory deletes nothing. -/
theorem cleanAndDestroy_home_protected_witness :
    (tdHomeC1.normalize tdHomeC1.targetDir = tdHomeC1.normalize tdHomeC1.homeDir) ∧
    (cleanAndDestroy tdHomeC1).1.countP (fun a => a.isDeleteEntry) = 0 :=
  ⟨by decide, cleanAndDestroy_home_protected tdHomeC1 (by decide)⟩

/-! ## Claim C9 -/

/-- Claim C9: whenever the deletion sweep runs, the entry named like the
running script is never deleted, and every other entry of the target
directory is attempted for deletion. -/
theorem cleanAndDestroy_sweep_skips_script (t : TeardownInput)
    (hne : t.normalize t.targetDir ≠ t.normalize t.homeDir)
    (hld : t.listdirRaises = false) :
    (cleanAndDestroy t).1.count (Act.deleteEntry t.scriptName) = 0 ∧
    ∀ e ∈ t.entries, e ≠ t.scriptName → Act.deleteEntry e ∈ (cleanAndDestroy t).1 := by
  have htr := cleanAndDestroy_sweep_trace t hne hld
  constructor
  · rw [htr]
    simp only [List.count_append]
    rw [count_pre_eq_zero t _ (by simp) (by simp) (by simp)]
    have hd : (t.entries.filterMap fun e =>
        if e = t.scriptName then none else some (Act.deleteEntry e)).count
          (Act.deleteEntry t.scriptName) = 0 := by
      rw [List.count_eq_zero]
      intro hmem
      obtain ⟨e, _, heq⟩ := List.mem_filterMap.mp hmem
      by_cases hse : e = t.scriptName
      · rw [if_pos hse] at heq
        exact Option.noConfusion heq
      · rw [if_neg hse] at heq
        exact hse (Act.deleteEntry.inj (Option.some.inj heq))
    rw [hd]
    have ho : (cleanup_docker_orphans t.composePresent).count
        (Act.deleteEntry t.scriptName) = 0 := by
      unfold cleanup_docker_orphans
      split <;> simp
    have hp : (if t.noDockerCleanup then [] else cleanup_docker).count
        (Act.deleteEntry t.scriptName) = 0 := by
      split <;> simp [cleanup_docker]
    rw [ho, hp]
  · intro e he hne2
    rw [htr]
    refine List.mem_append_left _ (List.mem_append_left _ (List.mem_append_right _ ?_))
    exact List.mem_filterMap.mpr ⟨e, he, by rw [if_neg hne2]⟩

/-- Witness for claim C9: in a concrete sweep the script file survives and
the repository directory is deleted. -/
theorem cleanAndDestroy_sweep_skips_script_witness :
    (cleanAndDestroy tdC9).1.count (Act.deleteEntry tdC9.scriptName) = 0 ∧
    Act.deleteEntry "Mythic" ∈ (cleanAndDestroy tdC9).1 :=
  ⟨(cleanAndDestroy_sweep_skips_script tdC9 (by decide) (by decide)).1,
   (cleanAndDestroy_sweep_skips_script tdC9 (by decide) (by decide)).2
     "Mythic" (by decide) (by decide)⟩

/-! ## Claim C4 -/

/-- Counterexample for claim C4: a teardown whose target is the home
directory returns before either Docker cleanup although the compose file
is present and the skip flag is not set: neither the compose-scoped
orphan cleanup nor the system prune appears in the trace. -/
theorem cleanAndDestroy_docker_skipped_at_home :
    (tdHomeC4.normalize tdHomeC4.targetDir = tdHomeC4.normalize tdHomeC4.homeDir) ∧
    tdHomeC4.composePresent = true ∧
    tdHomeC4.noDockerCleanup = false ∧
    (cleanAndDestroy tdHomeC4).1.count Act.composeDown = 0 ∧
    (cleanAndDestroy tdHomeC4).1.count Act.systemPrune = 0 := by
  decide

/-- Amended claim C4: on every teardown that neither hits the
home-directory refusal nor aborts on the directory listing, the
compose-scoped orphan cleanup runs exactly once when the compose file is
present and not at all otherwise, and each of the three prune commands
runs exactly once unless the skip flag suppresses them. -/
theorem cleanAndDestroy_docker_cleanup (t : TeardownInput)
    (hne : t.normalize t.targetDir ≠ t.normalize t.homeDir)
    (hld : t.listdirRaises = false) :
    (cleanAndDestroy t).1.count Act.composeDown =
      (if t.composePresent then 1 else 0) ∧
    (cleanAndDestroy t).1.count Act.containerPrune =
      (if t.noDockerCleanup then 0 else 1) ∧
    (cleanAndDestroy t).1.count Act.volumePrune =
      (if t.noDockerCleanup then 0 else 1) ∧
    (cleanAndDestroy t).1.count Act.systemPrune =
      (if t.noDockerCleanup then 0 else 1) := by
  have htr := cleanAndDestroy_sweep_trace t hne hld
  refine ⟨?_, ?_, ?_, ?_⟩ <;>
    rw [htr] <;>
    simp only [List.count_append] <;>
    rw [count_pre_eq_zero t _ (by simp) (fun it => by simp) (fun it => by simp),
      count_dels_eq_zero t _ (fun e => by simp)] <;>
    unfold cleanup_docker_orphans cleanup_docker <;>
    split_ifs <;> simp [List.count_cons]

/-- Witness for the amended claim C4 at a teardown that reaches the
Docker cleanups. -/
theorem cleanAndDestroy_docker_cleanup_witness :
    (tdC4w.normalize tdC4w.targetDir ≠ tdC4w.normalize tdC4w.homeDir) ∧
    (cleanAndDestroy tdC4w).1.count Act.composeDown =
      (if tdC4w.composePresent then 1 else 0) ∧
    (cleanAndDestroy tdC4w).1.count Act.systemPrune =
      (if tdC4w.noDockerCleanup then 0 else 1) :=
  ⟨by decide,
   (cleanAndDestroy_docker_cleanup tdC4w (by decide) (by decide)).1,
   (cleanAndDestroy_docker_cleanup tdC4w (by decide) (by decide)).2.2.2⟩

/-! ## Claim C5 -/

/-- The firewall restrictor never fails the run: every `CalledProcessError`
of the two rule insertions is caught (lines 243-244). -/
theorem configureRules_returns_none (t : Option String) (df af : Bool) :
    (configureRules t df af).2 = none := by
  cases t with
  | none => rfl
  | some s =>
    simp only [configureRules]
    split_ifs <;> rfl

/-- Counterexample for claim C5: with a trusted address supplied and the
DROP insertion failing, the ACCEPT insertion is never issued, so the
claimed "exactly one ACCEPT insertion" does not hold. -/
theorem configureRules_drop_failure_skips_accept :
    (("10.0.0.5/32" == "") = false) ∧
    (configureRules (some "10.0.0.5/32") true false).1.count
      (Act.iptables dropRuleArgs) = 1 ∧
    (configureRules (some "10.0.0.5/32") true false).1.count
      (Act.iptables (acceptRuleArgs "10.0.0.5/32")) = 0 := by
  decide

/-- Amended claim C5: with no (or an empty) trusted address the restrictor
issues no rule command; otherwise it issues the DROP insertion for
TCP/7443 at the front of the chain first and, provided that insertion
succeeded, exactly the ACCEPT insertion for TCP/7443 from the trusted
source after it; a failing insertion never fails the overall run. -/
theorem configureRules_rule_semantics (t : Option String) (df af : Bool) :
    ((t = none ∨ t = some "") → (configureRules t df af).1 = []) ∧
    (∀ s, t = some s → s ≠ "" →
      (configureRules t df af).1 =
        Act.iptables dropRuleArgs ::
          (if df then [] else [Act.iptables (acceptRuleArgs s)])) ∧
    (configureRules t df af).2 = none := by
  refine ⟨?_, ?_, configureRules_returns_none t df af⟩
  · intro h
    rcases h with h | h <;> subst h <;> simp [configureRules]
  · intro s hs hne
    subst hs
    simp only [configureRules, if_neg hne]
    split_ifs <;> rfl

/-- Witness for the amended claim C5: with a trusted address and both
insertions succeeding, the trace is the DROP insertion followed by the
ACCEPT insertion. -/
theorem configureRules_rule_semantics_witness :
    (configureRules (some "10.0.0.5/32") false false).1 =
      [Act.iptables dropRuleArgs, Act.iptables (acceptRuleArgs "10.0.0.5/32")] := by
  have h := (configureRules_rule_semantics (some "10.0.0.5/32") false false).2.1
    "10.0.0.5/32" rfl (by decide)
  simpa using h

/-! ## Claim C6 -/

/-- Counterexample for claim C6: an uninstall failure whose error text
does not contain the words "not installed" is downgraded to the very same
warning, so no substring distinction is made. -/
theorem cleanAndDestroy_uninstall_no_text_distinction :
    tdC6.uninstallErr apfellItem = some handshakeErr ∧
    pyIn "not installed" handshakeErr = false ∧
    Act.warnUninstall apfellItem ∈ (cleanAndDestroy tdC6).1 := by
  decide

/-- Map a function over a list of items, with equal per-item blocks. -/
theorem flatMap_congr_acts (l : List String) (F G : String → List Act)
    (h : ∀ x ∈ l, F x = G x) : l.flatMap F = l.flatMap G := by
  induction l with
  | nil => rfl
  | cons x xs ih =>
    simp only [List.flatMap_cons]
    rw [h x (List.mem_cons_self x xs), ih fun y hy => h y (List.mem_cons_of_mem x hy)]

/-- The uninstall loop's trace depends only on which items failed, never
on the text of their errors. -/
theorem uninstallPhase_text_irrelevant (t : TeardownInput)
    (f g : String → Option String) (h : ∀ it, (f it).isSome = (g it).isSome) :
    uninstallPhase { t with uninstallErr := f } =
    uninstallPhase { t with uninstallErr := g } := by
  unfold uninstallPhase
  apply flatMap_congr_acts
  intro it _
  have hit := h it
  have hpf : ({ t with uninstallErr := f } : TeardownInput).uninstallErr = f := rfl
  have hpg : ({ t with uninstallErr := g } : TeardownInput).uninstallErr = g := rfl
  rw [hpf, hpg]
  cases hf : f it <;> cases hg : g it <;> rw [hf, hg] at hit <;>
    first
      | rfl
      | simp at hit

/-- Amended claim C6: every failed uninstall in the teardown loop is
downgraded to a warning regardless of its error text, and the whole
teardown trace is unchanged by any change of error texts that keeps the
same items failing: the loop inspects no error text. -/
theorem cleanAndDestroy_uninstall_warns_uniformly :
    (∀ (t : TeardownInput) (it e : String), t.cliPresent = true →
      it ∈ uninstallItems → t.uninstallErr it = some e →
      Act.warnUninstall it ∈ (cleanAndDestroy t).1) ∧
    (∀ (t : TeardownInput) (f g : String → Option String),
      (∀ it, (f it).isSome = (g it).isSome) →
      (cleanAndDestroy { t with uninstallErr := f }).1 =
      (cleanAndDestroy { t with uninstallErr := g }).1) := by
  constructor
  · intro t it e hcli hit he
    refine pre_mem_cleanAndDestroy t _ hcli (List.mem_cons_of_mem _ ?_)
    simp only [uninstallPhase, List.mem_flatMap]
    exact ⟨it, hit, by rw [he]; simp⟩
  · intro t f g h
    simp only [cleanAndDestroy, uninstallPhase_text_irrelevant t f g h]

/-- Witness for the amended claim C6: a failure whose text happens to be
"not installed" is warned about like any other. -/
theorem cleanAndDestroy_uninstall_warns_uniformly_witness :
    tdC6w.cliPresent = true ∧
    Act.warnUninstall apfellItem ∈ (cleanAndDestroy tdC6w).1 :=
  ⟨by decide,
   cleanAndDestroy_uninstall_warns_uniformly.1 tdC6w apfellItem "not installed"
     (by decide) (by decide) (by decide)⟩

/-! ## Claim C7 -/

/-- The plugin installer returns normally whatever fails per item. -/
theorem stockAgentsAndProfiles_returns_none (cli : Bool) (f : String → Bool) :
    (stockAgentsAndProfiles cli f).2 = none := by
  unfold stockAgentsAndProfiles
  split_ifs <;> rfl

/-- Claim C7: with the CLI present, every one of the seven items is
attempted by the install loop and by the uninstall loop, whatever set of
items fails (per-item failures are caught), and the two loops iterate the
identical list. -/
theorem plugin_loops_attempt_all :
    (∀ (cli : Bool) (f : String → Bool), cli = true →
      ∀ it ∈ installItems, Act.installItem it ∈ (stockAgentsAndProfiles cli f).1) ∧
    (∀ (cli : Bool) (f : String → Bool), (stockAgentsAndProfiles cli f).2 = none) ∧
    (∀ (t : TeardownInput), t.cliPresent = true →
      ∀ it ∈ uninstallItems, Act.uninstallItem it ∈ (cleanAndDestroy t).1) ∧
    installItems = uninstallItems := by
  refine ⟨?_, stockAgentsAndProfiles_returns_none, ?_, rfl⟩
  · intro cli f hcli it hit
    simp only [stockAgentsAndProfiles, hcli, if_true, List.mem_flatMap]
    exact ⟨it, hit, List.mem_cons_self _ _⟩
  · intro t hcli it hit
    refine pre_mem_cleanAndDestroy t _ hcli (List.mem_cons_of_mem _ ?_)
    simp only [uninstallPhase, List.mem_flatMap]
    exact ⟨it, hit, List.mem_cons_self _ _⟩

/-- Witness for claim C7: with every install and uninstall failing, the
first plugin is still attempted on both sides. -/
theorem plugin_loops_attempt_all_witness :
    Act.installItem apfellItem ∈ (stockAgentsAndProfiles true (fun _ => true)).1 ∧
    Act.uninstallItem apfellItem ∈ (cleanAndDestroy tdC7).1 ∧
    installItems = uninstallItems :=
  ⟨plugin_loops_attempt_all.1 true (fun _ => true) rfl apfellItem (by decide),
   plugin_loops_attempt_all.2.2.1 tdC7 (by decide) apfellItem (by decide),
   plugin_loops_attempt_all.2.2.2⟩

/-! ## Claim C3 -/

/-- After the nested-`.git` phase the clone handler can never take its
pull branch: that branch needs `.git` to exist at the re-check, and the
phase either deleted it or it never existed. -/
theorem clonePhase_no_pull (i : ReconInput) :
    (clonePhase i false).1.count Act.pull = 0 := by
  unfold clonePhase
  cases i.cloneError with
  | none => simp [withActs, build_mythic]
  | some msg =>
    by_cases hc : (pyIn "destination path" msg && pyIn "already exists" msg) = true <;>
      simp [hc, withActs, build_mythic, List.count_cons]

/-- Deleting the colliding files emits no pull either. -/
theorem count_pull_map_deleteConflict (l : List String) :
    (l.map Act.deleteConflict).count Act.pull = 0 := by
  rw [List.count_eq_zero]
  intro h
  obtain ⟨e, _, heq⟩ := List.mem_map.mp h
  exact Act.noConfusion heq

/-- The conflict phase adds only prompt and conflict-deletion actions. -/
theorem conflictPhase_no_pull (i : ReconInput) :
    (conflictPhase i false).1.count Act.pull = 0 := by
  unfold conflictPhase
  by_cases h1 : i.conflicts.isEmpty = true
  · rw [if_pos h1]
    exact clonePhase_no_pull i
  · rw [if_neg h1]
    cases hans : i.conflictAns with
    | yes =>
      by_cases h2 : i.rmConflictFails = true <;>
        simp [h2, withActs, List.count_cons, List.count_append,
          clonePhase_no_pull i, count_pull_map_deleteConflict]
    | no => simp
    | interrupted => simp

/-- Claim C3 is refuted by the code: no run of `cloneAndBuild` ever
performs a pull, and on the failing input — a target that already holds a
correctly tracked clone, both prompts confirmed — the run deletes the
existing `.git` directory and the colliding files and clones from
scratch. -/
theorem cloneAndBuild_never_pulls :
    (∀ i : ReconInput, (cloneAndBuild i).1.count Act.pull = 0) ∧
    reconC3.gitDirExists = true ∧
    reconC3.remotes.contains MYTHIC_REPO_URL = true ∧
    (cloneAndBuild reconC3).1 =
      [Act.promptGit, Act.deleteGitDir, Act.promptConflicts,
       Act.deleteConflict "Makefile", Act.cloneAttempt, Act.build] := by
  refine ⟨?_, by decide, by decide, by decide⟩
  intro i
  unfold cloneAndBuild
  by_cases h1 : i.gitDirExists = true
  · rw [if_pos h1]
    cases hans : i.gitAns with
    | yes =>
      by_cases h2 : i.rmGitFails = true <;>
        simp [h2, withActs, List.count_cons, List.count_append, conflictPhase_no_pull i]
    | no => simp
    | interrupted => simp
  · rw [if_neg h1]
    exact conflictPhase_no_pull i

/-! ## Claim C8 -/

/-- The build phase of the reconciler under an input whose early phases
all pass: the trace is a clone and a build, and the run returns normally
or exits 1 according to the `make` result. -/
theorem cloneAndBuild_plain (i : ReconInput)
    (h1 : i.gitDirExists = false) (h2 : i.conflicts = [])
    (h3 : i.cloneError = none) :
    cloneAndBuild i =
      ([Act.cloneAttempt, Act.build],
       if i.makeFails then some (Ev.exitCode 1) else none) := by
  unfold cloneAndBuild conflictPhase clonePhase
  simp [h1, h2, h3, withActs, build_mythic]

/-- Claim C8: the process exit codes.  A `--cleanup` run that completes
exits 0; declining either destructive prompt exits 0; a failing `make`
exits 1; a keyboard interrupt at a prompt exits 1; an uncaught
`CalledProcessError` from `./mythic-cli start` exits 1; and a fully
normal completion exits 0. -/
theorem main_exit_codes :
    (∀ i : MainInput, i.cleanup = true →
      (cleanAndDestroy i.teardown).2 = none → mainExit i = 0) ∧
    (∀ i : MainInput, i.cleanup = false → i.recon.gitDirExists = true →
      i.recon.gitAns = Ans.no → mainExit i = 0) ∧
    (∀ i : MainInput, i.cleanup = false → i.recon.gitDirExists = false →
      i.recon.conflicts ≠ [] → i.recon.conflictAns = Ans.no → mainExit i = 0) ∧
    (∀ i : MainInput, i.cleanup = false → i.recon.gitDirExists = false →
      i.recon.conflicts = [] → i.recon.cloneError = none →
      i.recon.makeFails = true → mainExit i = 1) ∧
    (∀ i : MainInput, i.cleanup = false → i.recon.gitDirExists = true →
      i.recon.gitAns = Ans.interrupted → mainExit i = 1) ∧
    (∀ i : MainInput, i.cleanup = false → i.recon.gitDirExists = false →
      i.recon.conflicts = [] → i.recon.cloneError = none →
      i.recon.makeFails = false → i.envFlag = false → i.cliPresent = true →
      i.startRaises = true → mainExit i = 1) ∧
    (∀ i : MainInput, i.cleanup = false → i.recon.gitDirExists = false →
      i.recon.conflicts = [] → i.recon.cloneError = none →
      i.recon.makeFails = false → i.envFlag = false → i.cliPresent = true →
      i.startRaises = false → mainExit i = 0) := by
  refine ⟨?_, ?_, ?_, ?_, ?_, ?_, ?_⟩
  · intro i h1 h2
    simp [mainExit, mainRun, h1, seqR, h2]
  · intro i h1 h2 h3
    have hcb : cloneAndBuild i.recon = ([Act.promptGit], some (Ev.exitCode 0)) := by
      unfold cloneAndBuild
      simp [h2, h3]
    simp [mainExit, mainRun, h1, seqR, hcb]
  · intro i h1 h2 h3 h4
    have hcb : cloneAndBuild i.recon = ([Act.promptConflicts], some (Ev.exitCode 0)) := by
      unfold cloneAndBuild conflictPhase
      have : i.recon.conflicts.isEmpty = false := by
        cases hc : i.recon.conflicts
        · exact absurd hc h3
        · rfl
      simp [h2, this, h4]
    simp [mainExit, mainRun, h1, seqR, hcb]
  · intro i h1 h2 h3 h4 h5
    have hcb := cloneAndBuild_plain i.recon h2 h3 h4
    rw [h5] at hcb
    simp [mainExit, mainRun, h1, seqR, hcb]
  · intro i h1 h2 h3
    have hcb : cloneAndBuild i.recon = ([Act.promptGit], some Ev.interrupt) := by
      unfold cloneAndBuild
      simp [h2, h3]
    simp [mainExit, mainRun, h1, seqR, hcb]
  · intro i h1 h2 h3 h4 h5 h6 h7 h8
    have hcb := cloneAndBuild_plain i.recon h2 h3 h4
    rw [h5] at hcb
    simp [mainExit, mainRun, h1, seqR, hcb, h6, h7, h8]
  · intro i h1 h2 h3 h4 h5 h6 h7 h8
    have hcb := cloneAndBuild_plain i.recon h2 h3 h4
    rw [h5] at hcb
    by_cases h9 : i.installFlag = true <;>
      simp [mainExit, mainRun, h1, seqR, hcb, h6, h7, h8, h9,
        configureRules_returns_none, stockAgentsAndProfiles_returns_none]

/-- Witness for claim C8: every conjunct applied at a concrete run. -/
theorem main_exit_codes_witness :
    mainExit mC8cleanup = 0 ∧
    mainExit mC8declineGit = 0 ∧
    mainExit mC8declineConflicts = 0 ∧
    mainExit mC8makeFails = 1 ∧
    mainExit mC8interrupt = 1 ∧
    mainExit mC8startFails = 1 ∧
    mainExit mC8normal = 0 :=
  ⟨main_exit_codes.1 mC8cleanup (by decide) (by decide),
   main_exit_codes.2.1 mC8declineGit (by decide) (by decide) (by decide),
   main_exit_codes.2.2.1 mC8declineConflicts (by decide) (by decide)
     (by decide) (by decide),
   main_exit_codes.2.2.2.1 mC8makeFails (by decide) (by decide) (by decide)
     (by decide) (by decide),
   main_exit_codes.2.2.2.2.1 mC8interrupt (by decide) (by decide) (by decide),
   main_exit_codes.2.2.2.2.2.1 mC8startFails (by decide) (by decide) (by decide)
     (by decide) (by decide) (by decide) (by decide) (by decide),
   main_exit_codes.2.2.2.2.2.2 mC8normal (by decide) (by decide) (by decide)
     (by decide) (by decide) (by decide) (by decide) (by decide)⟩

/-! ## String-level lemmas for the env file format -/

/-- Appending strings appends their character lists. -/
theorem strToList_append (s t : String) : (s ++ t).toList = s.toList ++ t.toList := rfl

/-- A string is its character list. -/
theorem strMk_toList (s : String) : String.mk s.toList = s := rfl

/-- Strings with equal character lists are equal. -/
theorem str_inj {s t : String} (h : s.toList = t.toList) : s = t := by
  have h2 := congrArg String.mk h
  rwa [strMk_toList, strMk_toList] at h2

/-- Dropping while a predicate that holds nowhere drops nothing. -/
theorem dropWhile_of_forall_false {p : Char → Bool} :
    ∀ {cs : List Char}, (∀ c ∈ cs, p c = false) → cs.dropWhile p = cs
  | [], _ => rfl
  | c :: cs, h => by
    rw [List.dropWhile_cons, h c (List.mem_cons_self c cs)]
    simp

/-- Stripping characters that occur nowhere in the list is the identity. -/
theorem pyStripList_of_forall_false {p : Char → Bool} {cs : List Char}
    (h : ∀ c ∈ cs, p c = false) : pyStripList p cs = cs := by
  unfold pyStripList
  rw [dropWhile_of_forall_false h,
    dropWhile_of_forall_false (fun c hc => h c (List.mem_reverse.mp hc)),
    List.reverse_reverse]

/-- Stripping is the identity when both end characters are kept. -/
theorem pyStripList_ends {p : Char → Bool} (a b : Char) (mid : List Char)
    (ha : p a = false) (hb : p b = false) :
    pyStripList p (a :: (mid ++ [b])) = a :: (mid ++ [b]) := by
  unfold pyStripList
  have h1 : List.dropWhile p (a :: (mid ++ [b])) = a :: (mid ++ [b]) := by
    rw [List.dropWhile_cons, ha]
    simp
  rw [h1]
  have h2 : (a :: (mid ++ [b])).reverse = b :: (mid.reverse ++ [a]) := by
    simp
  rw [h2]
  have h3 : List.dropWhile p (b :: (mid.reverse ++ [a])) = b :: (mid.reverse ++ [a]) := by
    rw [List.dropWhile_cons, hb]
    simp
  rw [h3, ← h2, List.reverse_reverse]

/-- Splitting at the first equals sign, when the part before it has none. -/
theorem splitAtFirstEq_append {as : List Char} (bs : List Char) (h : '=' ∉ as) :
    splitAtFirstEq (as ++ '=' :: bs) = (as, bs) := by
  induction as with
  | nil => simp [splitAtFirstEq]
  | cons a rest ih =>
    have ha : ¬(a = '=') := fun hh => h (hh ▸ List.mem_cons_self a rest)
    simp only [List.cons_append, splitAtFirstEq, if_neg ha, List.append_eq]
    rw [ih (fun hm => h (List.mem_cons_of_mem a hm))]

/-- Two decompositions around a first marker agree when neither prefix
contains the marker. -/
theorem append_marker_inj {as : List Char} :
    ∀ {cs bs ds : List Char}, '=' ∉ as → '=' ∉ cs →
    as ++ '=' :: bs = cs ++ '=' :: ds → as = cs ∧ bs = ds := by
  induction as with
  | nil =>
    intro cs bs ds _ hc h
    cases cs with
    | nil => simpa using h
    | cons c cr =>
      simp only [List.nil_append, List.cons_append, List.cons.injEq] at h
      exact absurd (List.mem_cons.mpr (Or.inl h.1)) hc
  | cons a ar ih =>
    intro cs bs ds ha hc h
    cases cs with
    | nil =>
      simp only [List.cons_append, List.nil_append, List.cons.injEq] at h
      exact absurd (List.mem_cons.mpr (Or.inl h.1.symm)) ha
    | cons c cr =>
      simp only [List.cons_append, List.cons.injEq] at h
      obtain ⟨rfl, h2⟩ := h
      obtain ⟨h3, h4⟩ := ih (fun hm => ha (List.mem_cons_of_mem _ hm))
        (fun hm => hc (List.mem_cons_of_mem _ hm)) h2
      exact ⟨by rw [h3], h4⟩

/-- A leading segment ending in the marker determines the part of the
line before its first marker. -/
theorem chListLeads_marker {as : List Char} :
    ∀ {cs ds : List Char}, '=' ∉ as → '=' ∉ cs →
    chListLeads (as ++ ['=']) (cs ++ '=' :: ds) = true → as = cs := by
  induction as with
  | nil =>
    intro cs ds _ hc h
    cases cs with
    | nil => rfl
    | cons c cr =>
      simp only [List.nil_append, List.cons_append, chListLeads,
        Bool.and_eq_true, beq_iff_eq] at h
      exact absurd (List.mem_cons.mpr (Or.inl h.1)) hc
  | cons a ar ih =>
    intro cs ds ha hc h
    cases cs with
    | nil =>
      simp only [List.cons_append, List.nil_append, chListLeads,
        Bool.and_eq_true, beq_iff_eq] at h
      exact absurd (List.mem_cons.mpr (Or.inl h.1.symm)) ha
    | cons c cr =>
      simp only [List.cons_append, chListLeads, Bool.and_eq_true, beq_iff_eq] at h
      obtain ⟨rfl, h2⟩ := h
      rw [ih (fun hm => ha (List.mem_cons_of_mem _ hm))
        (fun hm => hc (List.mem_cons_of_mem _ hm)) h2]

/-- Stripping quotes around a quote-free list recovers the list. -/
theorem stripQuotes_wrap {v : List Char} (h : '"' ∉ v) :
    pyStripList (fun c => c == '"') ('"' :: (v ++ ['"'])) = v := by
  have hb : ∀ c ∈ v, (c == '"') = false := by
    intro c hc
    rw [beq_eq_false_iff_ne]
    intro he
    exact h (he ▸ hc)
  unfold pyStripList
  rw [List.dropWhile_cons]
  simp only [beq_self_eq_true, if_true]
  cases v with
  | nil => simp [List.dropWhile]
  | cons v0 vt =>
    rw [List.cons_append, List.dropWhile_cons, hb v0 (List.mem_cons_self v0 vt)]
    simp only [Bool.false_eq_true, if_false]
    have hr : (v0 :: (vt ++ ['"'])).reverse = '"' :: (vt.reverse ++ [v0]) := by simp
    rw [hr, List.dropWhile_cons]
    simp only [beq_self_eq_true, if_true]
    rw [dropWhile_of_forall_false ?notq]
    case notq =>
      intro c hc
      rcases List.mem_append.mp hc with hc | hc
      · exact hb c (List.mem_cons_of_mem v0 (List.mem_reverse.mp hc))
      · simp only [List.mem_singleton] at hc
        exact hc ▸ hb v0 (List.mem_cons_self v0 vt)
    simp

/-- A trailing chunk with no line breaks is one final line. -/
theorem pySplitLinesAux_no_break {cs : List Char}
    (h : ∀ c ∈ cs, isLineBreak c = false) :
    ∀ acc : List Char, acc ≠ [] ∨ cs ≠ [] →
    pySplitLinesAux cs acc false = [String.mk (acc.reverse ++ cs)] := by
  induction cs with
  | nil =>
    intro acc hne
    rcases hne with hne | hne
    · cases acc with
      | nil => exact absurd rfl hne
      | cons x xs => simp [pySplitLinesAux]
    · exact absurd rfl hne
  | cons c rest ih =>
    intro acc _
    have hcb := h c (List.mem_cons_self c rest)
    have hcr : ¬(c = '\r') := by
      intro hh
      rw [hh] at hcb
      exact absurd hcb (by decide)
    simp only [pySplitLinesAux, Bool.false_and, Bool.false_eq_true, if_false,
      if_neg hcr, hcb]
    rw [ih (fun x hx => h x (List.mem_cons_of_mem c hx)) (c :: acc) (Or.inl (by simp))]
    simp

/-- A break-free chunk before a newline is one emitted line. -/
theorem pySplitLinesAux_chunk {cs : List Char}
    (h : ∀ c ∈ cs, isLineBreak c = false) :
    ∀ (rest acc : List Char),
    pySplitLinesAux (cs ++ '\n' :: rest) acc false =
      String.mk (acc.reverse ++ cs) :: pySplitLinesAux rest [] false := by
  induction cs with
  | nil =>
    intro rest acc
    simp only [List.nil_append, pySplitLinesAux, Bool.false_and, Bool.false_eq_true,
      if_false, if_neg (by decide : ¬('\n' = '\r'))]
    rw [(by decide : isLineBreak '\n' = true)]
    simp
  | cons c cr ih =>
    intro rest acc
    have hcb := h c (List.mem_cons_self c cr)
    have hcr : ¬(c = '\r') := by
      intro hh
      rw [hh] at hcb
      exact absurd hcb (by decide)
    simp only [List.cons_append, pySplitLinesAux, Bool.false_and, Bool.false_eq_true,
      if_false, if_neg hcr, hcb, List.append_eq]
    rw [ih (fun x hx => h x (List.mem_cons_of_mem c hx)) rest (c :: acc)]
    simp

/-- The character list of a joined nonempty tail. -/
theorem pyJoin_toList_cons (x y : String) (t : List String) :
    (pyJoin "\n" (x :: y :: t)).toList =
      x.toList ++ '\n' :: (pyJoin "\n" (y :: t)).toList := by
  show (x ++ "\n" ++ pyJoin "\n" (y :: t)).toList = _
  rw [strToList_append, strToList_append]
  simp

/-- Splitting the newline-join of nonempty break-free lines recovers the
lines: the inverse direction of the file writer against its reader. -/
theorem pySplitLines_join : ∀ {ls : List String}, ls ≠ [] →
    (∀ l ∈ ls, l.toList ≠ [] ∧ ∀ c ∈ l.toList, isLineBreak c = false) →
    pySplitLines (pyJoin "\n" ls) = ls := by
  intro ls
  induction ls with
  | nil => intro h _; exact absurd rfl h
  | cons x xs ih =>
    intro _ hgood
    cases xs with
    | nil =>
      unfold pySplitLines
      obtain ⟨hx1, hx2⟩ := hgood x (List.mem_cons_self x [])
      rw [show pyJoin "\n" [x] = x from rfl]
      rw [pySplitLinesAux_no_break hx2 [] (Or.inr hx1)]
      simp [strMk_toList]
    | cons y ys =>
      unfold pySplitLines
      rw [pyJoin_toList_cons x y ys]
      obtain ⟨hx1, hx2⟩ := hgood x (List.mem_cons_self _ _)
      rw [pySplitLinesAux_chunk hx2 _ []]
      have hih := ih (by simp) (fun l hl => hgood l (List.mem_cons_of_mem x hl))
      unfold pySplitLines at hih
      rw [hih]
      simp [strMk_toList]

/-! ## Dictionary and serialization lemmas -/

/-- A line-break character is whitespace. -/
theorem break_implies_space {c : Char} (h : isLineBreak c = true) :
    pyIsSpace c = true := by
  simp only [isLineBreak, Bool.or_eq_true, beq_iff_eq] at h
  simp only [pyIsSpace, Bool.or_eq_true, beq_iff_eq]
  tauto

/-- Inserting a fresh key appends the binding. -/
theorem dictInsert_notMem (d : List (String × String)) (k v : String)
    (h : ∀ kv ∈ d, kv.1 ≠ k) : dictInsert d k v = d ++ [(k, v)] := by
  unfold dictInsert
  rw [if_neg]
  intro hc
  rw [List.any_eq_true] at hc
  obtain ⟨kv, hkv, he⟩ := hc
  exact h kv hkv (by simpa using he)

/-- Inserting never empties the dictionary. -/
theorem dictInsert_ne_nil (d : List (String × String)) (k v : String) :
    dictInsert d k v ≠ [] := by
  intro hh
  unfold dictInsert at hh
  split_ifs at hh with h
  · cases d with
    | nil => simp at h
    | cons x xs => simp at hh
  · simp at hh

/-- Folding insertions of pairwise fresh keys appends the pairs. -/
theorem foldl_dictInsert_fresh (ps : List (String × String)) :
    ∀ acc : List (String × String),
    (∀ q ∈ ps, ∀ kv ∈ acc, kv.1 ≠ q.1) → (ps.map Prod.fst).Nodup →
    ps.foldl (fun a q => dictInsert a q.1 q.2) acc = acc ++ ps := by
  induction ps with
  | nil => intro acc _ _; simp
  | cons q qs ih =>
    intro acc hfresh hnodup
    simp only [List.foldl_cons]
    rw [dictInsert_notMem acc q.1 q.2
      (fun kv hkv => hfresh q (List.mem_cons_self q qs) kv hkv)]
    rw [ih (acc ++ [q]) ?hf ?hn]
    · simp
    case hf =>
      intro r hr kv hkv
      rcases List.mem_append.mp hkv with hkv | hkv
      · exact hfresh r (List.mem_cons_of_mem q hr) kv hkv
      · simp only [List.mem_singleton] at hkv
        subst hkv
        simp only [List.map_cons, List.nodup_cons] at hnodup
        intro hqr
        exact hnodup.1 (hqr ▸ List.mem_map.mpr ⟨r, hr, rfl⟩)
    case hn =>
      simp only [List.map_cons, List.nodup_cons] at hnodup
      exact hnodup.2

/-- `envPairs` of a null-headed list. -/
theorem envPairs_cons_none (k : String) (m : List (String × Option String)) :
    envPairs ((k, none) :: m) = envPairs m := by
  simp [envPairs]

/-- `envPairs` of a non-null-headed list. -/
theorem envPairs_cons_some (k v : String) (m : List (String × Option String)) :
    envPairs ((k, some v) :: m) = (pyUpper k, v) :: envPairs m := by
  simp [envPairs]

/-- The names of the written entries are drawn, in order, from the
upper-cased names of the whole map. -/
theorem envPairs_keys_sublist (m : List (String × Option String)) :
    ((envPairs m).map Prod.fst).Sublist (m.map (fun kv => pyUpper kv.1)) := by
  induction m with
  | nil => simp [envPairs]
  | cons kv m ih =>
    obtain ⟨k, ov⟩ := kv
    cases ov with
    | none =>
      rw [envPairs_cons_none]
      exact ih.cons _
    | some v =>
      rw [envPairs_cons_some]
      exact ih.cons₂ _

/-- The accumulating form of `effectiveEnv`, when the upper-cased names of
the non-null entries are pairwise distinct and fresh for the accumulator:
the Python dict ends up as the accumulator followed by the entries in
order. -/
theorem effectiveEnv_go (m : List (String × Option String)) :
    ∀ acc : List (String × String),
    (∀ q ∈ envPairs m, ∀ kv ∈ acc, kv.1 ≠ q.1) →
    ((envPairs m).map Prod.fst).Nodup →
    m.foldl
      (fun acc kv =>
        match kv.2 with
        | none => acc
        | some v => dictInsert acc (pyUpper kv.1) v)
      acc = acc ++ envPairs m := by
  induction m with
  | nil => intro acc _ _; simp [envPairs]
  | cons kv m ih =>
    obtain ⟨k, ov⟩ := kv
    intro acc hfresh hnodup
    cases ov with
    | none =>
      rw [envPairs_cons_none] at hfresh hnodup
      rw [List.foldl_cons]
      rw [envPairs_cons_none]
      exact ih acc hfresh hnodup
    | some v =>
      rw [envPairs_cons_some] at hfresh hnodup
      rw [List.foldl_cons]
      show m.foldl _ (dictInsert acc (pyUpper k) v) = _
      rw [dictInsert_notMem acc (pyUpper k) v
        (fun kv2 hkv2 => hfresh (pyUpper k, v) (List.mem_cons_self _ _) kv2 hkv2)]
      rw [ih (acc ++ [(pyUpper k, v)]) ?hf ?hn]
      · rw [envPairs_cons_some]
        simp
      case hf =>
        intro q hq kv2 hkv2
        rcases List.mem_append.mp hkv2 with hkv2 | hkv2
        · exact hfresh q (List.mem_cons_of_mem _ hq) kv2 hkv2
        · simp only [List.mem_singleton] at hkv2
          subst hkv2
          simp only [List.map_cons, List.nodup_cons] at hnodup
          intro hqr
          apply hnodup.1
          simp only at hqr
          rw [hqr]
          exact List.mem_map.mpr ⟨q, hq, rfl⟩
      case hn =>
        simp only [List.map_cons, List.nodup_cons] at hnodup
        exact hnodup.2

/-- With pairwise distinct written names, the Python dict built by
`configureMythic` is exactly the ordered list of written entries. -/
theorem effectiveEnv_eq_envPairs (m : List (String × Option String))
    (h : ((envPairs m).map Prod.fst).Nodup) :
    effectiveEnv m = envPairs m := by
  unfold effectiveEnv
  rw [effectiveEnv_go m [] (by intro q _ kv hkv; simp at hkv) h]
  simp

/-- Folding the serializer step over an all-null map does nothing. -/
theorem foldl_env_all_none (m : List (String × Option String))
    (hall : ∀ kv ∈ m, kv.2 = none) :
    ∀ acc : List (String × String),
    m.foldl
      (fun acc kv =>
        match kv.2 with
        | none => acc
        | some v => dictInsert acc (pyUpper kv.1) v)
      acc = acc := by
  induction m with
  | nil => intro acc; rfl
  | cons kv m ih =>
    intro acc
    obtain ⟨k, ov⟩ := kv
    have hk := hall (k, ov) (List.mem_cons_self _ _)
    simp only at hk
    subst hk
    rw [List.foldl_cons]
    exact ih (fun q hq => hall q (List.mem_cons_of_mem _ hq)) acc

/-- Folding the serializer step never empties a nonempty dict. -/
theorem foldl_env_ne_nil (m : List (String × Option String)) :
    ∀ acc : List (String × String), acc ≠ [] →
    m.foldl
      (fun acc kv =>
        match kv.2 with
        | none => acc
        | some v => dictInsert acc (pyUpper kv.1) v)
      acc ≠ [] := by
  induction m with
  | nil => intro acc h; simpa using h
  | cons kv m ih =>
    intro acc h
    obtain ⟨k, ov⟩ := kv
    rw [List.foldl_cons]
    cases ov with
    | none => exact ih acc h
    | some v => exact ih _ (dictInsert_ne_nil acc (pyUpper k) v)

/-- A non-null entry makes the dict nonempty. -/
theorem foldl_env_some_ne_nil (m : List (String × Option String)) :
    ∀ kv, kv ∈ m → ∀ v : String, kv.2 = some v →
    ∀ acc : List (String × String),
    m.foldl
      (fun acc kv =>
        match kv.2 with
        | none => acc
        | some v => dictInsert acc (pyUpper kv.1) v)
      acc ≠ [] := by
  induction m with
  | nil => intro kv hkv; simp at hkv
  | cons q qs ih =>
    intro kv hkv v hv acc
    rw [List.foldl_cons]
    rcases List.mem_cons.mp hkv with rfl | hmem
    · obtain ⟨k2, ov2⟩ := kv
      simp only at hv
      subst hv
      exact foldl_env_ne_nil qs _ (dictInsert_ne_nil acc (pyUpper k2) v)
    · obtain ⟨k2, ov2⟩ := q
      cases ov2 with
      | none => exact ih kv hmem v hv acc
      | some v2 => exact foldl_env_ne_nil qs _ (dictInsert_ne_nil acc (pyUpper k2) v2)

/-- No file is written exactly when every override value is null. -/
theorem envFileContent_none_iff (m : List (String × Option String)) :
    envFileContent m = none ↔ ∀ kv ∈ m, kv.2 = none := by
  unfold envFileContent
  constructor
  · intro h kv hkv
    cases hv : kv.2 with
    | none => rfl
    | some v =>
      exfalso
      have hne : effectiveEnv m ≠ [] := by
        unfold effectiveEnv
        exact foldl_env_some_ne_nil m kv hkv v hv []
      rw [if_neg (fun hh => hne (List.isEmpty_iff.mp hh))] at h
      exact Option.noConfusion h
  · intro hall
    have hnil : effectiveEnv m = [] := by
      unfold effectiveEnv
      exact foldl_env_all_none m hall []
    rw [if_pos (List.isEmpty_iff.mpr hnil)]

/-- Decomposing a written file: the dict is nonempty and the content is
its serialization. -/
theorem envFileContent_some {m : List (String × Option String)} {c : String}
    (h : envFileContent m = some c) :
    effectiveEnv m ≠ [] ∧ c = confContent (effectiveEnv m) := by
  unfold envFileContent at h
  by_cases he : (effectiveEnv m).isEmpty = true
  · rw [if_pos he] at h
    exact Option.noConfusion h
  · rw [if_neg he] at h
    exact ⟨fun hh => he (List.isEmpty_iff.mpr hh), (Option.some.inj h).symm⟩

/-! ## Parsing one serialized line -/

/-- The character list of one serialized entry. -/
theorem envLine_toList (K v : String) :
    (envLine K v).toList = K.toList ++ '=' :: '"' :: (v.toList ++ ['"']) := by
  unfold envLine
  rw [strToList_append, strToList_append, strToList_append]
  simp

/-- Serialized entries with equals-free names determine their name and
value. -/
theorem envLine_inj {K1 v1 K2 v2 : String} (h1 : '=' ∉ K1.toList)
    (h2 : '=' ∉ K2.toList) (he : envLine K1 v1 = envLine K2 v2) :
    K1 = K2 ∧ v1 = v2 := by
  have hl := congrArg String.toList he
  rw [envLine_toList, envLine_toList] at hl
  obtain ⟨ha, hb⟩ := append_marker_inj h1 h2 hl
  refine ⟨str_inj ha, str_inj ?_⟩
  injection hb with hb1 hb2
  exact List.append_cancel_right hb2

/-- Parsing one well-formed serialized line inserts exactly the entry:
the whole-line strip is the identity, the split at the first equals sign
recovers the name, and the value strips back to itself. -/
theorem parseEnvLine_good (acc : List (String × String)) (K v : String)
    (hK : goodKey K) (hq : '"' ∉ v.toList) :
    parseEnvLine acc (envLine K v) = dictInsert acc K v := by
  obtain ⟨hne, heq, hsp⟩ := hK
  obtain ⟨k0, kr, hks⟩ : ∃ k0 kr, K.toList = k0 :: kr := by
    cases hh : K.toList with
    | nil => exact absurd hh hne
    | cons a b => exact ⟨a, b, rfl⟩
  have hline := envLine_toList K v
  have hform : (envLine K v).toList =
      k0 :: ((kr ++ '=' :: '"' :: v.toList) ++ ['"']) := by
    rw [hline, hks]
    simp
  have hstrip : pyStrip (envLine K v) = envLine K v := by
    unfold pyStrip pyStripChars
    rw [hform, pyStripList_ends k0 '"' _
      (hsp k0 (hks ▸ List.mem_cons_self k0 kr)) (by decide), ← hform, strMk_toList]
  unfold parseEnvLine
  rw [hstrip]
  rw [if_neg (by rw [hform]; simp)]
  rw [if_pos (by rw [hline]; exact List.mem_append_right _ (List.mem_cons_self _ _))]
  have hsplit : splitAtFirstEq (envLine K v).toList =
      (K.toList, '"' :: (v.toList ++ ['"'])) := by
    rw [hline]
    exact splitAtFirstEq_append _ heq
  rw [hsplit]
  have hkey : pyStrip (String.mk K.toList) = K := by
    unfold pyStrip pyStripChars
    rw [show (String.mk K.toList).toList = K.toList from rfl,
      pyStripList_of_forall_false hsp, strMk_toList]
  have hvalstrip : pyStrip (String.mk ('"' :: (v.toList ++ ['"']))) =
      String.mk ('"' :: (v.toList ++ ['"'])) := by
    unfold pyStrip pyStripChars
    rw [show (String.mk ('"' :: (v.toList ++ ['"']))).toList =
      '"' :: (v.toList ++ ['"']) from rfl]
    rw [pyStripList_ends '"' '"' v.toList (by decide) (by decide)]
  have hvq : pyStripQuotes (String.mk ('"' :: (v.toList ++ ['"']))) = v := by
    unfold pyStripQuotes pyStripChars
    rw [show (String.mk ('"' :: (v.toList ++ ['"']))).toList =
      '"' :: (v.toList ++ ['"']) from rfl]
    rw [stripQuotes_wrap hq, strMk_toList]
  show dictInsert acc (pyStrip (String.mk K.toList))
      (pyStripQuotes (pyStrip (String.mk ('"' :: (v.toList ++ ['"']))))) =
    dictInsert acc K v
  rw [hkey, hvalstrip, hvq]

/-- Each serialized line of a well-formed entry list is nonempty and free
of line breaks. -/
theorem conf_lines_good (e : List (String × String))
    (hgood : ∀ q ∈ e, goodKey q.1 ∧ ∀ c ∈ q.2.toList, isLineBreak c = false) :
    ∀ l ∈ e.map (fun kv => envLine kv.1 kv.2),
      l.toList ≠ [] ∧ ∀ c ∈ l.toList, isLineBreak c = false := by
  intro l hl
  obtain ⟨q, hq, rfl⟩ := List.mem_map.mp hl
  obtain ⟨⟨hk1, hk2, hk3⟩, hq3⟩ := hgood q hq
  constructor
  · rw [envLine_toList]
    simp
  · intro c hc
    rw [envLine_toList] at hc
    rcases List.mem_append.mp hc with hc | hc
    · cases hb : isLineBreak c
      · rfl
      · have hsp2 := break_implies_space hb
        rw [hk3 c hc] at hsp2
        exact Bool.noConfusion hsp2
    · rcases List.mem_cons.mp hc with rfl | hc
      · decide
      · rcases List.mem_cons.mp hc with rfl | hc
        · decide
        · rcases List.mem_append.mp hc with hc | hc
          · exact hq3 c hc
          · simp only [List.mem_singleton] at hc
            subst hc
            decide

/-- Folding the `--print` parser over the serialized lines equals folding
plain insertions over the entries. -/
theorem foldl_parse_conflines (e : List (String × String)) :
    ∀ acc : List (String × String),
    (∀ q ∈ e, goodKey q.1 ∧ '"' ∉ q.2.toList) →
    (e.map (fun kv => envLine kv.1 kv.2)).foldl parseEnvLine acc =
      e.foldl (fun a q => dictInsert a q.1 q.2) acc := by
  induction e with
  | nil => intro acc _; rfl
  | cons q qs ih =>
    intro acc hgood
    simp only [List.map_cons, List.foldl_cons]
    rw [parseEnvLine_good acc q.1 q.2 (hgood q (List.mem_cons_self q qs)).1
      (hgood q (List.mem_cons_self q qs)).2]
    exact ih _ (fun r hr => hgood r (List.mem_cons_of_mem q hr))

/-- The `--print` parser recovers a well-formed entry list from its
serialization. -/
theorem parse_confContent (e : List (String × String)) (hne : e ≠ [])
    (hgood : ∀ q ∈ e,
      goodKey q.1 ∧ '"' ∉ q.2.toList ∧ ∀ c ∈ q.2.toList, isLineBreak c = false)
    (hnd : (e.map Prod.fst).Nodup) :
    pyPrintEnvParse (confContent e) = e := by
  unfold pyPrintEnvParse confContent
  have hne2 : e.map (fun kv => envLine kv.1 kv.2) ≠ [] := by
    intro hh
    exact hne (by simpa using hh)
  rw [pySplitLines_join hne2
    (conf_lines_good e (fun q hq => ⟨(hgood q hq).1, (hgood q hq).2.2⟩))]
  rw [foldl_parse_conflines e [] (fun q hq => ⟨(hgood q hq).1, (hgood q hq).2.1⟩)]
  rw [foldl_dictInsert_fresh e [] (by intro q _ kv hkv; simp at hkv) hnd]
  simp

/-! ## The fixed option names are well formed -/

/-- Every upper-cased fixed option name is a good key. -/
theorem envOptionKeys_upper_good : ∀ k ∈ envOptionKeys, goodKey (pyUpper k) := by
  decide

/-- The upper-cased fixed option names are pairwise distinct. -/
theorem envOptionKeys_upper_nodup : (envOptionKeys.map pyUpper).Nodup := by
  decide

/-- With as many values as names, the upper-cased names of the override
map are the upper-cased fixed names. -/
theorem envOverrides_upper_map (vals : List (Option String))
    (h : vals.length = envOptionKeys.length) :
    (envOverrides vals).map (fun kv => pyUpper kv.1) = envOptionKeys.map pyUpper := by
  show List.map (pyUpper ∘ Prod.fst) (envOptionKeys.zip vals) = _
  rw [← List.map_map, List.map_fst_zip _ _ (le_of_eq h.symm)]

/-- Every written entry of an override map stems from a fixed option name
zipped against a supplied value. -/
theorem mem_envPairs_overrides {vals : List (Option String)} {q : String × String}
    (hq : q ∈ envPairs (envOverrides vals)) :
    ∃ k, (k, some q.2) ∈ envOverrides vals ∧ q.1 = pyUpper k := by
  obtain ⟨⟨k2, ov2⟩, hkvm, hfkv⟩ := List.mem_filterMap.mp hq
  cases ov2 with
  | none => exact absurd hfkv (by simp)
  | some v =>
    simp only [Option.map_some'] at hfkv
    obtain rfl := (Option.some.inj hfkv).symm
    exact ⟨k2, hkvm, rfl⟩

/-! ## Claim C2 -/

/-- Counterexample for claim C2: a supplied value containing a newline
spreads its entry over two lines of the written file, so the file contains
no line of the claimed `NAME="value"` form for that non-null key. -/
theorem configureMythic_line_claim_fails :
    ("allowed_ip_blocks", some "10.0.0.0/8\n192.168.0.0/16") ∈ envOverrides c2cxVals ∧
    envFileContent (envOverrides c2cxVals) =
      some "ALLOWED_IP_BLOCKS=\"10.0.0.0/8\n192.168.0.0/16\"" ∧
    (pySplitLines "ALLOWED_IP_BLOCKS=\"10.0.0.0/8\n192.168.0.0/16\"").count
      (envLine "ALLOWED_IP_BLOCKS" "10.0.0.0/8\n192.168.0.0/16") = 0 := by
  decide

/-- Amended claim C2: a configuration file is written exactly when at
least one override value is non-null; and when the non-null values contain
no line-break character, the written file contains exactly one line
`NAME="value"` for each non-null key, with the name upper-cased, and no
line for any null-valued key. -/
theorem configureMythic_env_file (vals : List (Option String))
    (hlen : vals.length = envOptionKeys.length)
    (hvb : ∀ ov ∈ vals, optionNoBreak ov) :
    ((envFileContent (envOverrides vals)).isSome = true ↔
      ∃ kv ∈ envOverrides vals, kv.2 ≠ none) ∧
    ∀ c, envFileContent (envOverrides vals) = some c →
      (∀ k v, (k, some v) ∈ envOverrides vals →
        (pySplitLines c).count (envLine (pyUpper k) v) = 1) ∧
      (∀ k, (k, none) ∈ envOverrides vals →
        ∀ line ∈ pySplitLines c, lineForName (pyUpper k) line = false) := by
  have hnd0 : ((envOverrides vals).map (fun kv => pyUpper kv.1)).Nodup := by
    rw [envOverrides_upper_map vals hlen]
    exact envOptionKeys_upper_nodup
  have hndp : ((envPairs (envOverrides vals)).map Prod.fst).Nodup :=
    List.Nodup.sublist (envPairs_keys_sublist _) hnd0
  have heff := effectiveEnv_eq_envPairs _ hndp
  have hqgood : ∀ q ∈ envPairs (envOverrides vals),
      goodKey q.1 ∧ ∀ c ∈ q.2.toList, isLineBreak c = false := by
    intro q hq
    obtain ⟨k, hk, hk2⟩ := mem_envPairs_overrides hq
    have hkeys := (List.of_mem_zip hk).1
    have hvalmem := (List.of_mem_zip hk).2
    have hv := hvb _ hvalmem
    exact ⟨hk2 ▸ envOptionKeys_upper_good k hkeys, hv⟩
  constructor
  · constructor
    · intro h
      by_contra hno
      push_neg at hno
      have hnone := (envFileContent_none_iff _).mpr hno
      rw [hnone] at h
      exact Bool.noConfusion h
    · rintro ⟨kv, hkv, hne⟩
      cases hs : envFileContent (envOverrides vals) with
      | some c => rfl
      | none => exact absurd ((envFileContent_none_iff _).mp hs kv hkv) hne
  · intro c hc
    obtain ⟨hne, hcc⟩ := envFileContent_some hc
    rw [heff] at hne hcc
    subst hcc
    have hlines : pySplitLines (confContent (envPairs (envOverrides vals))) =
        (envPairs (envOverrides vals)).map (fun kv => envLine kv.1 kv.2) := by
      unfold confContent
      exact pySplitLines_join (fun hh => hne (by simpa using hh))
        (conf_lines_good _ hqgood)
    constructor
    · intro k v hkv
      rw [hlines]
      have hmem : (pyUpper k, v) ∈ envPairs (envOverrides vals) :=
        List.mem_filterMap.mpr ⟨(k, some v), hkv, by simp⟩
      have hnd2 : ((envPairs (envOverrides vals)).map
          (fun kv => envLine kv.1 kv.2)).Nodup := by
        apply List.Nodup.map_on
        · intro x hx y hy hxy
          have hex : '=' ∉ x.1.toList := ((hqgood x hx).1).2.1
          have hey : '=' ∉ y.1.toList := ((hqgood y hy).1).2.1
          obtain ⟨ha, hb⟩ := envLine_inj hex hey hxy
          exact Prod.ext ha hb
        · exact List.Nodup.of_map Prod.fst hndp
      exact List.count_eq_one_of_mem hnd2
        (List.mem_map.mpr ⟨(pyUpper k, v), hmem, rfl⟩)
    · intro k hknone line hline
      rw [hlines] at hline
      obtain ⟨q, hq, rfl⟩ := List.mem_map.mp hline
      obtain ⟨kq, hkq, hq1⟩ := mem_envPairs_overrides hq
      have hne2 : pyUpper k ≠ q.1 := by
        rw [hq1]
        intro hup
        have hpair := List.inj_on_of_nodup_map hnd0 hknone hkq (by simpa using hup)
        simp at hpair
      cases hb : lineForName (pyUpper k) (envLine q.1 q.2) with
      | false => rfl
      | true =>
        exfalso
        unfold lineForName at hb
        rw [strToList_append, envLine_toList] at hb
        have hkk : '=' ∉ (pyUpper k).toList :=
          (envOptionKeys_upper_good k (List.of_mem_zip hknone).1).2.1
        have hkq2 : '=' ∉ q.1.toList := ((hqgood q hq).1).2.1
        exact hne2 (str_inj (chListLeads_marker hkk hkq2 hb))

/-- Witness for the amended claim C2: one non-null value at the first and
one at the twenty-second position, both newline-free. -/
theorem configureMythic_env_file_witness :
    ((envFileContent (envOverrides c2wVals)).isSome = true ↔
      ∃ kv ∈ envOverrides c2wVals, kv.2 ≠ none) ∧
    (pySplitLines
        "ALLOWED_IP_BLOCKS=\"10.0.0.0/8\"\nHASURA_USE_BUILD_CONTEXT=\"secret\"").count
      (envLine "HASURA_USE_BUILD_CONTEXT" "secret") = 1 :=
  ⟨(configureMythic_env_file c2wVals (by decide) (by decide)).1,
   ((configureMythic_env_file c2wVals (by decide) (by decide)).2
       "ALLOWED_IP_BLOCKS=\"10.0.0.0/8\"\nHASURA_USE_BUILD_CONTEXT=\"secret\""
       (by decide)).1
     "hasura_use_build_context" "secret" (by decide)⟩

/-! ## Claim C10 -/

/-- Claim C10: writing the configuration file for an override map whose
non-null values contain no double quote, no line break, and no leading or
trailing whitespace, and then parsing it with the program's own `--print`
parser, recovers exactly the upper-cased non-null entries of the map, in
order. -/
theorem env_write_print_roundtrip (vals : List (Option String))
    (hlen : vals.length = envOptionKeys.length)
    (hvals : ∀ ov ∈ vals, optionGood ov) :
    ∀ c, envFileContent (envOverrides vals) = some c →
    pyPrintEnvParse c = envPairs (envOverrides vals) := by
  intro c hc
  have hnd0 : ((envOverrides vals).map (fun kv => pyUpper kv.1)).Nodup := by
    rw [envOverrides_upper_map vals hlen]
    exact envOptionKeys_upper_nodup
  have hndp : ((envPairs (envOverrides vals)).map Prod.fst).Nodup :=
    List.Nodup.sublist (envPairs_keys_sublist _) hnd0
  have heff := effectiveEnv_eq_envPairs _ hndp
  obtain ⟨hne, hcc⟩ := envFileContent_some hc
  rw [heff] at hne hcc
  subst hcc
  apply parse_confContent _ hne _ hndp
  intro q hq
  obtain ⟨k, hk, hk2⟩ := mem_envPairs_overrides hq
  have hkeys := (List.of_mem_zip hk).1
  have hvalmem := (List.of_mem_zip hk).2
  have hv := hvals _ hvalmem
  exact ⟨hk2 ▸ envOptionKeys_upper_good k hkeys, hv.1, hv.2.1⟩

/-- Witness for claim C10: two non-null values round-trip through the
written file and the `--print` parser. -/
theorem env_write_print_roundtrip_witness :
    pyPrintEnvParse "COMPOSE_PROJECT_NAME=\"mythic\"\nDEBUG_LEVEL=\"2\"" =
      [("COMPOSE_PROJECT_NAME", "mythic"), ("DEBUG_LEVEL", "2")] := by
  have h := env_write_print_roundtrip c10wVals (by decide) (by decide)
    "COMPOSE_PROJECT_NAME=\"mythic\"\nDEBUG_LEVEL=\"2\"" (by decide)
  rw [h]
  decide

end MythicInit
